import Mathlib

/- Verification of the Texas Hold'em core of the CardGame repository
   (src/Cardgame/src/game3.rs): a shallow embedding of the poker hand
   evaluator and the betting state machine, with theorems checking the
   specification's claims against the code.

   Modelling conventions:
   * u8 / u32 quantities (ranks, suits, pot, bet amounts) are Nat; the
     signed i32 chip stacks are Int.  All values stay far below any
     machine-integer bound, so no wrap-around modelling is needed.
   * The UI layer (egui rendering, textures, message strings, timers) is
     out of scope per the specification; fields of struct TexasHoldemGame
     that exist purely for rendering are omitted, and card texture
     loading (create_card_fast) is modelled as always succeeding.
   * Randomness (the deck shuffle, the hard AI's coin flip, HashMap
     iteration order) is modelled by explicit parameters, quantified in
     the theorems. -/

namespace CardGame

/-- A playing card: rank in 1..13 and suit in 1..4 (game3.rs struct Card;
the id, face-up flag and texture handles are rendering-only and omitted). -/
structure Card where
  rank : Nat
  suit : Nat
deriving DecidableEq, Repr

/-- Hand strength categories (game3.rs enum HandStrength). -/
inductive HandStrength where
  | HighCard
  | OnePair
  | TwoPair
  | ThreeOfAKind
  | Straight
  | Flush
  | FullHouse
  | FourOfAKind
  | StraightFlush
deriving DecidableEq, Repr

/-- Category ordinal (game3.rs HandStrength::to_u8). -/
def HandStrength.to_u8 : HandStrength → Nat
  | .HighCard => 0
  | .OnePair => 1
  | .TwoPair => 2
  | .ThreeOfAKind => 3
  | .Straight => 4
  | .Flush => 5
  | .FullHouse => 6
  | .FourOfAKind => 7
  | .StraightFlush => 8

/-- Evaluation result (game3.rs struct HandResult). -/
structure HandResult where
  hand_strength : HandStrength
  high_cards : List Nat
deriving DecidableEq, Repr

/-- Descending sort, modelling ranks.sort_by(|a, b| b.cmp(a)) in game3.rs.
On Nat keys a stable sort and any sort agree, so insertion sort is faithful. -/
def sortDesc (l : List Nat) : List Nat := List.insertionSort (fun a b => b ≤ a) l

/-- Ascending sort, modelling sorted_ranks.sort() in game3.rs is_straight. -/
def sortAsc (l : List Nat) : List Nat := List.insertionSort (fun a b => a ≤ b) l

/-- Removal of consecutive duplicates, modelling Vec::dedup in game3.rs
is_straight (applied there to an ascending-sorted list). -/
def dedupConsec : List Nat → List Nat
  | [] => []
  | [a] => [a]
  | a :: b :: l => if a = b then dedupConsec (b :: l) else a :: dedupConsec (b :: l)

/-- Straight detection (game3.rs is_straight): sort ascending, dedup,
require five distinct ranks; then any window of five consecutive entries
whose extremes differ by 4, or the wheel A-2-3-4-5. -/
def is_straight (ranks : List Nat) : Bool :=
  let sorted_ranks := dedupConsec (sortAsc ranks)
  if sorted_ranks.length < 5 then false
  else if (List.range (sorted_ranks.length - 4)).any
      (fun i => sorted_ranks.getD (i + 4) 0 - sorted_ranks.getD i 0 == 4) then true
  else sorted_ranks.contains 1 && sorted_ranks.contains 2 && sorted_ranks.contains 3
    && sorted_ranks.contains 4 && sorted_ranks.contains 5

/-- N-of-a-kind lookup (game3.rs has_n_of_a_kind).  The Rust original
iterates a freshly built HashMap from rank to count and returns the first
rank whose count equals n; HashMap iteration order is unspecified, so it
is passed explicitly as o, a permutation of the distinct ranks. -/
def has_n_of_a_kind (ranks : List Nat) (n : Nat) (o : List Nat) : Option Nat :=
  o.find? (fun r => ranks.count r == n)

/-- Ranks occurring at least twice, sorted descending (game3.rs get_pairs);
o is the HashMap iteration order as in has_n_of_a_kind. -/
def get_pairs (ranks : List Nat) (o : List Nat) : Option (List Nat) :=
  let pairs := sortDesc (o.filter (fun r => decide (2 ≤ ranks.count r)))
  if pairs.isEmpty then none else some pairs

/-- One HashMap iteration order for each map built during a single run of
evaluate_five_card_hand: oFour for the four-of-a-kind check, oThreeFH and
oTwoFH for the two lookups of the full-house check, oThree for
three-of-a-kind, oTwoOP for one-pair, oPairs for get_pairs. -/
structure IterOrders where
  oFour : List Nat
  oThreeFH : List Nat
  oTwoFH : List Nat
  oThree : List Nat
  oTwoOP : List Nat
  oPairs : List Nat

/-- A canonical choice of iteration orders: the distinct ranks in
first-occurrence order. -/
def canonicalOrders (ranks : List Nat) : IterOrders :=
  { oFour := ranks.dedup, oThreeFH := ranks.dedup, oTwoFH := ranks.dedup,
    oThree := ranks.dedup, oTwoOP := ranks.dedup, oPairs := ranks.dedup }

/-- Validity of a choice of iteration orders: each one enumerates exactly
the distinct ranks (the key set of the corresponding HashMap), in some order. -/
def validOrders (O : IterOrders) (ranks : List Nat) : Prop :=
  O.oFour.Perm ranks.dedup ∧ O.oThreeFH.Perm ranks.dedup ∧ O.oTwoFH.Perm ranks.dedup
  ∧ O.oThree.Perm ranks.dedup ∧ O.oTwoOP.Perm ranks.dedup ∧ O.oPairs.Perm ranks.dedup

/-- Flush detection (inline in game3.rs evaluate_five_card_hand):
all suits equal to the first one.  The default for the head on the empty
list is irrelevant: the function is only applied to 5-card hands. -/
def is_flush_b (suits : List Nat) : Bool := suits.all (fun t => t == suits.headD 0)

/-- Stages Flush through HighCard of game3.rs evaluate_five_card_hand
(reached when the straight-flush, four-of-a-kind and full-house checks
all fell through). -/
def efch_stage4 (O : IterOrders) (ranks : List Nat) (isf iss : Bool) : HandResult :=
  if isf then { hand_strength := .Flush, high_cards := ranks }
  else if iss then { hand_strength := .Straight, high_cards := [ranks.headD 0] }
  else
    match has_n_of_a_kind ranks 3 O.oThree with
    | some three_rank =>
        { hand_strength := .ThreeOfAKind,
          high_cards := three_rank ::
            (sortDesc (ranks.filter (fun r => r != three_rank))).take 2 }
    | none =>
      match get_pairs ranks O.oPairs with
      | some (p0 :: p1 :: _) =>
          { hand_strength := .TwoPair,
            high_cards := [p0, p1, (ranks.find? (fun r => r != p0 && r != p1)).getD 1] }
      | _ =>
        match has_n_of_a_kind ranks 2 O.oTwoOP with
        | some pair_rank =>
            { hand_strength := .OnePair,
              high_cards := pair_rank ::
                (sortDesc (ranks.filter (fun r => r != pair_rank))).take 3 }
        | none => { hand_strength := .HighCard, high_cards := ranks }

/-- Stages FourOfAKind and FullHouse of game3.rs evaluate_five_card_hand.
The source evaluates both full-house lookups eagerly into a pair before
matching; nesting the two matches is semantically identical since the
lookups are pure. -/
def efch_stage2 (O : IterOrders) (ranks : List Nat) (isf iss : Bool) : HandResult :=
  match has_n_of_a_kind ranks 4 O.oFour with
  | some quad_rank =>
      { hand_strength := .FourOfAKind,
        high_cards := [quad_rank, (ranks.find? (fun r => r != quad_rank)).getD 1] }
  | none =>
    match has_n_of_a_kind ranks 3 O.oThreeFH with
    | some three_rank =>
      match has_n_of_a_kind ranks 2 O.oTwoFH with
      | some two_rank =>
          if three_rank ≠ two_rank then
            { hand_strength := .FullHouse, high_cards := [three_rank, two_rank] }
          else efch_stage4 O ranks isf iss
      | none => efch_stage4 O ranks isf iss
    | none => efch_stage4 O ranks isf iss

/-- Core of game3.rs evaluate_five_card_hand on the descending-sorted rank
list and the flush flag. -/
def efch_main (O : IterOrders) (ranks : List Nat) (isf : Bool) : HandResult :=
  let iss := is_straight ranks
  if isf && iss then { hand_strength := .StraightFlush, high_cards := [ranks.headD 0] }
  else efch_stage2 O ranks isf iss

/-- Evaluation of one 5-card hand (game3.rs evaluate_five_card_hand),
parameterized by the HashMap iteration orders O of this run. -/
def evaluate_five_card_hand (O : IterOrders) (cards : List Card) : HandResult :=
  efch_main O (sortDesc (cards.map Card.rank)) (is_flush_b (cards.map Card.suit))

/-- Three-way comparison on Nat, modelling u8 Ord::cmp. -/
def ordCompare (a b : Nat) : Ordering :=
  if a < b then .lt else if b < a then .gt else .eq

/-- The key-comparing loop of game3.rs compare_hand_results: walk the
zipped keys and return the first non-equal comparison, Equal at the end. -/
def zipCmpAux : List (Nat × Nat) → Ordering
  | [] => .eq
  | p :: rest =>
    match ordCompare p.1 p.2 with
    | .eq => zipCmpAux rest
    | o => o

/-- game3.rs compare_hand_results: category ordinal first, then the zipped
tie-break keys element-wise; everything past the zipped common prefix is
ignored and both tails of the source (lines 1103-1110) return Equal. -/
def compare_hand_results (hand1 hand2 : HandResult) : Ordering :=
  match ordCompare hand1.hand_strength.to_u8 hand2.hand_strength.to_u8 with
  | .eq => zipCmpAux (hand1.high_cards.zip hand2.high_cards)
  | o => o

/-- game3.rs compare_hands simply delegates. -/
def compare_hands (hand1 hand2 : HandResult) : Ordering := compare_hand_results hand1 hand2

/-- All k-element combinations in the source's depth-first emission order
(game3.rs generate_combinations / combinations_recursive: combinations
containing the earliest card come first). -/
def kCombos : Nat → List Card → List (List Card)
  | 0, _ => [[]]
  | _ + 1, [] => []
  | k + 1, c :: rest => (kCombos k rest).map (fun l => c :: l) ++ kCombos (k + 1) rest

/-- game3.rs generate_combinations. -/
def generate_combinations (cards : List Card) (k : Nat) : List (List Card) :=
  kCombos k cards

/-- game3.rs get_sorted_ranks: all ranks, sorted descending. -/
def get_sorted_ranks (cards : List Card) : List Nat := sortDesc (cards.map Card.rank)

/-- The best-so-far fold of game3.rs real_hand_evaluation, keeping the
first result when two combinations compare Equal; OS gives the HashMap
iteration orders used when evaluating the i-th combination. -/
def rhe_loop (OS : Nat → IterOrders) : List (List Card) → Nat → HandResult → HandResult
  | [], _, best => best
  | combo :: rest, i, best =>
    let result := evaluate_five_card_hand (OS i) combo
    rhe_loop OS rest (i + 1)
      (if compare_hand_results result best == .gt then result else best)

/-- game3.rs real_hand_evaluation: fewer than five cards degrade to a
high-card result over the available ranks; otherwise the maximum over all
5-card combinations, starting from the HighCard/empty seed of the source. -/
def real_hand_evaluation (OS : Nat → IterOrders) (cards : List Card) : HandResult :=
  if cards.length < 5 then
    { hand_strength := .HighCard, high_cards := get_sorted_ranks cards }
  else
    rhe_loop OS (generate_combinations cards 5) 0
      { hand_strength := .HighCard, high_cards := [] }

/-- game3.rs evaluate_best_hand: hole cards chained with community cards. -/
def evaluate_best_hand (OS : Nat → IterOrders) (hand community : List Card) : HandResult :=
  real_hand_evaluation OS (hand ++ community)

/-- The canonical oracle assigns the canonical iteration orders to every
combination of the given card list. -/
def canonical_oracle (cards : List Card) : Nat → IterOrders :=
  fun i =>
    canonicalOrders (sortDesc (((generate_combinations cards 5).getD i []).map Card.rank))

/-- evaluate_five_card_hand run with the canonical iteration orders. -/
def evaluate_five_card_hand_c (cards : List Card) : HandResult :=
  evaluate_five_card_hand (canonicalOrders (sortDesc (cards.map Card.rank))) cards

/-- evaluate_best_hand run with the canonical iteration orders. -/
def evaluate_best_hand_c (hand community : List Card) : HandResult :=
  evaluate_best_hand (canonical_oracle (hand ++ community)) hand community

/-- game3.rs enum GamePhase. -/
inductive GamePhase where
  | PreFlop
  | Flop
  | Turn
  | River
  | Showdown
deriving DecidableEq, Repr

/-- difficulty.rs enum GameDifficulty. -/
inductive GameDifficulty where
  | Easy
  | Medium
  | Hard
deriving DecidableEq, Repr

/-- game3.rs enum AiAction. -/
inductive AiAction where
  | Fold
  | Check
  | Bet (amount : Nat)
deriving DecidableEq, Repr

/-- Card identity used while building the deck (game3.rs struct CardId). -/
structure CardId where
  rank : Nat
  suit : Nat
deriving DecidableEq, Repr

/-- The state of game3.rs struct TexasHoldemGame that the core logic reads
or writes.  Rendering-only fields (message string, egui context, textures,
the wall-clock AI timer, game_state/game_initializing of the menu flow) are
omitted; waiting_for_ai is kept because it gates the action interface. -/
structure GameState where
  selected_difficulty : Option GameDifficulty
  player_hand : List Card
  ai_hand : List Card
  community_cards : List Card
  deck : List Card
  player_chips : Int
  ai_chips : Int
  pot : Nat
  current_bet : Nat
  game_phase : GamePhase
  game_over : Bool
  show_ai_cards : Bool
  waiting_for_ai : Bool
  player_acted : Bool
  ai_acted : Bool
  both_checked : Bool
  first_round : Bool
  has_used_special_action : Bool
deriving DecidableEq, Repr

/-- game3.rs TexasHoldemGame::new. -/
def TexasHoldemGame_new : GameState :=
  { selected_difficulty := none
    player_hand := []
    ai_hand := []
    community_cards := []
    deck := []
    player_chips := 200
    ai_chips := 100
    pot := 0
    current_bet := 0
    game_phase := .PreFlop
    game_over := false
    show_ai_cards := false
    waiting_for_ai := false
    player_acted := false
    ai_acted := false
    both_checked := false
    first_round := true
    has_used_special_action := false }

/-- game3.rs get_fixed_bet_amount: the fixed bet table indexed by phase. -/
def get_fixed_bet_amount (s : GameState) : Nat :=
  match s.game_phase with
  | .PreFlop => 10
  | .Flop => 20
  | .Turn => 30
  | .River => 40
  | .Showdown => 0

/-- game3.rs check_game_end: either stack at or below zero ends the session. -/
def check_game_end (s : GameState) : GameState :=
  if s.player_chips ≤ 0 ∨ s.ai_chips ≤ 0 then { s with game_over := true } else s

/-- game3.rs place_bet: the player's stack may go negative; the player's
stack alone is checked immediately afterwards. -/
def place_bet (s : GameState) (amount : Nat) : GameState :=
  let s1 := { s with
    player_chips := s.player_chips - amount
    pot := s.pot + amount
    current_bet := amount }
  if s1.player_chips ≤ 0 then { s1 with game_over := true } else s1

/-- game3.rs player_check: only records whether both sides checked. -/
def player_check (s : GameState) : GameState :=
  { s with both_checked := s.player_acted && s.ai_acted }

/-- game3.rs player_fold: awards the pot to the AI and runs check_game_end. -/
def player_fold (s : GameState) : GameState :=
  check_game_end { s with
    show_ai_cards := true
    ai_chips := s.ai_chips + s.pot
    pot := 0 }

/-- Settlement part of game3.rs evaluate_showdown: award or split the pot
according to the comparison of the two best hands, then clear the pot.
The evaluator is run with the canonical iteration orders; by the
order-invariance theorem below this agrees with any run of the original. -/
def evaluate_showdown_settle (s : GameState) : GameState :=
  let player_result := evaluate_best_hand_c s.player_hand s.community_cards
  let ai_result := evaluate_best_hand_c s.ai_hand s.community_cards
  let s1 :=
    match compare_hands player_result ai_result with
    | .gt => { s with player_chips := s.player_chips + s.pot }
    | .lt => { s with ai_chips := s.ai_chips + s.pot }
    | .eq =>
        let half_pot := s.pot / 2
        { s with
          player_chips := s.player_chips + half_pot
          ai_chips := s.ai_chips + half_pot }
  { s1 with pot := 0 }

/-- game3.rs evaluate_showdown: settle the pot, then check for game end. -/
def evaluate_showdown (s : GameState) : GameState :=
  check_game_end (evaluate_showdown_settle s)

/-- game3.rs advance_phase: reset the per-round flags, clear first_round,
and step the phase; reaching River triggers the showdown. -/
def advance_phase (s : GameState) : GameState :=
  let s1 := { s with
    player_acted := false
    ai_acted := false
    both_checked := false
    current_bet := 0
    first_round := false }
  match s1.game_phase with
  | .PreFlop => { s1 with game_phase := .Flop }
  | .Flop => { s1 with game_phase := .Turn }
  | .Turn => { s1 with game_phase := .River }
  | .River =>
      let s2 := evaluate_showdown { s1 with show_ai_cards := true }
      { s2 with game_phase := .Showdown }
  | .Showdown => s1

/-- game3.rs check_round_end: both sides acted advances the phase (the
both_checked branch differs only in the message shown). -/
def check_round_end (s : GameState) : GameState :=
  if s.player_acted && s.ai_acted then advance_phase s else s

/-- game3.rs perform_ai_action, with the chosen action as a parameter
(the original draws it from calculate_ai_action, which is randomized). -/
def perform_ai_action (s : GameState) (a : AiAction) : GameState :=
  if s.ai_acted then s
  else
    match a with
    | .Fold =>
        check_round_end { s with
          show_ai_cards := true
          player_chips := s.player_chips + s.pot
          pot := 0
          ai_acted := true }
    | .Check =>
        let s1 := { s with ai_acted := true }
        check_round_end { s1 with both_checked := s1.player_acted && s1.ai_acted }
    | .Bet amount =>
        check_round_end { s with
          ai_chips := s.ai_chips - amount
          pot := s.pot + amount
          current_bet := amount
          ai_acted := true }

/-- game3.rs calculate_ai_action as a possibility predicate: which actions
the randomized policy can produce in state s.  Easy and Medium always bet
the fixed amount; Hard may check (coin flip) once the player has acted;
no difficulty ever folds. -/
def ai_action_possible (s : GameState) (a : AiAction) : Bool :=
  let fixed_bet := get_fixed_bet_amount s
  match s.selected_difficulty with
  | some .Easy => a == .Bet fixed_bet
  | some .Medium => a == .Bet fixed_bet
  | some .Hard => a == .Bet fixed_bet || (s.player_acted && a == .Check)
  | none => a == .Bet fixed_bet

/-- The 52 card identities, in the construction order of
game3.rs generate_random_card_ids (suit-major, rank 1..13 within a suit). -/
def all_possible_cards : List CardId :=
  (List.range 4).flatMap (fun t => (List.range 13).map (fun r => { rank := r + 1, suit := t + 1 }))

/-- game3.rs generate_random_card_ids: shuffle the 52 identities and take
count of them.  The random shuffle is passed explicitly as the already
shuffled list. -/
def generate_random_card_ids (shuffled : List CardId) (count : Nat) : List CardId :=
  shuffled.take count

/-- game3.rs create_card_fast, with texture loading (out of scope) modelled
as always succeeding. -/
def create_card_fast (c : CardId) : Card := { rank := c.rank, suit := c.suit }

/-- game3.rs initialize_deck_fast, renamed init_deck_fast here: clears the
deck and fills it with only 9 generated cards. -/
def init_deck_fast (s : GameState) (shuffled : List CardId) : GameState :=
  { s with deck := (generate_random_card_ids shuffled 9).map create_card_fast }

/-- game3.rs deal_cards: 2 to the player, 2 to the AI, 5 community cards,
popped from the front of the deck. -/
def deal_cards (s : GameState) : GameState :=
  { s with
    player_hand := s.deck.take 2
    ai_hand := (s.deck.drop 2).take 2
    community_cards := (s.deck.drop 4).take 5
    deck := s.deck.drop 9 }

/-- game3.rs start_game_fast: build the deck, deal, and reset the flags. -/
def start_game_fast (s : GameState) (shuffled : List CardId) : GameState :=
  let s1 := deal_cards (init_deck_fast s shuffled)
  { s1 with
    game_over := false
    show_ai_cards := false
    waiting_for_ai := false
    player_acted := false
    ai_acted := false
    first_round := true
    has_used_special_action := false }

/-- Session entry: TexasHoldemGame::new, difficulty selected, then
start_game_fast (the Initializing branch of game3.rs show). -/
def init_session (d : GameDifficulty) (shuffled : List CardId) : GameState :=
  start_game_fast { TexasHoldemGame_new with selected_difficulty := some d } shuffled

/-- game3.rs start_next_round: a fresh hand with the chip stacks kept. -/
def start_next_round (s : GameState) (shuffled : List CardId) : GameState :=
  let s1 := { s with
    player_hand := []
    ai_hand := []
    community_cards := []
    deck := []
    pot := 0
    current_bet := 0
    game_phase := GamePhase.PreFlop
    show_ai_cards := false
    waiting_for_ai := false
    player_acted := false
    ai_acted := false
    both_checked := false
    game_over := false
    has_used_special_action := false
    first_round := true }
  deal_cards (init_deck_fast s1 shuffled)

/-- Multiset equality test used to express that a deck parameter really is
a shuffle of the 52 card identities. -/
def isPermBag : List CardId → List CardId → Bool
  | [], l => l.isEmpty
  | a :: l, r => r.contains a && isPermBag l (r.erase a)

/-- The events one game session can perform (excluding the session resets
reset_to_difficulty_selection / reset_to_main_menu, which discard the
stacks).  PBet, PCheck, PFold are the three buttons of
show_game_action_buttons; AIMove is the timer expiry in show that runs
perform_ai_action; NextRound is the button shown at Showdown. -/
inductive GEvent where
  | PBet
  | PCheck
  | PFold
  | AIMove (a : AiAction)
  | NextRound (shuffled : List CardId)

/-- Guard of each event, read off game3.rs show_action_buttons /
show_game_action_buttons / show: buttons exist only when the game is not
over, the phase is not Showdown, the AI is not thinking and the player has
not acted; Check and Fold additionally need a non-first round and an unused
special action; the AI moves only while waiting_for_ai, with an action its
policy can produce; the next-round button only at Showdown when not over. -/
def event_allowed (s : GameState) : GEvent → Bool
  | .PBet =>
      !s.game_over && s.game_phase != .Showdown && !s.waiting_for_ai && !s.player_acted
  | .PCheck =>
      !s.game_over && s.game_phase != .Showdown && !s.waiting_for_ai && !s.player_acted
        && !s.first_round && !s.has_used_special_action
  | .PFold =>
      !s.game_over && s.game_phase != .Showdown && !s.waiting_for_ai && !s.player_acted
        && !s.first_round && !s.has_used_special_action
  | .AIMove a => s.waiting_for_ai && ai_action_possible s a
  | .NextRound shuffled =>
      !s.game_over && s.game_phase == .Showdown && isPermBag shuffled all_possible_cards

/-- Effect of each event, following the click handlers in
show_game_action_buttons (bet: place_bet, mark acted, start AI thinking;
check: player_check, mark acted, consume the special action, start AI
thinking; fold: player_fold then consume the special action) and the AI
timer branch of show (clear waiting_for_ai, then perform_ai_action). -/
def apply_event (s : GameState) : GEvent → GameState
  | .PBet =>
      let s1 := place_bet s (get_fixed_bet_amount s)
      { s1 with player_acted := true, waiting_for_ai := true }
  | .PCheck =>
      let s1 := player_check s
      { s1 with player_acted := true, has_used_special_action := true, waiting_for_ai := true }
  | .PFold =>
      let s1 := player_fold s
      { s1 with has_used_special_action := true }
  | .AIMove a => perform_ai_action { s with waiting_for_ai := false } a
  | .NextRound shuffled => start_next_round s shuffled

/-- Run a sequence of events from a state, failing if any guard fails. -/
def runOk (s : GameState) : List GEvent → Option GameState
  | [] => some s
  | e :: rest => if event_allowed s e then runOk (apply_event s e) rest else none

/-- A concrete shuffle whose first nine cards give the player two kings,
the AI low cards, and a dry board: the player wins the showdown. -/
def d1_first9 : List CardId :=
  [⟨13, 1⟩, ⟨13, 2⟩, ⟨2, 1⟩, ⟨3, 1⟩, ⟨5, 2⟩, ⟨7, 3⟩, ⟨9, 4⟩, ⟨11, 1⟩, ⟨4, 2⟩]

/-- d1_first9 completed to a full 52-card shuffle. -/
def d1 : List CardId :=
  d1_first9 ++ all_possible_cards.filter (fun c => !(d1_first9.contains c))

/-- A second concrete shuffle for the following hand. -/
def d2_first9 : List CardId :=
  [⟨12, 1⟩, ⟨12, 2⟩, ⟨2, 2⟩, ⟨3, 2⟩, ⟨5, 3⟩, ⟨7, 4⟩, ⟨9, 1⟩, ⟨11, 2⟩, ⟨4, 3⟩]

/-- d2_first9 completed to a full 52-card shuffle. -/
def d2 : List CardId :=
  d2_first9 ++ all_possible_cards.filter (fun c => !(d2_first9.contains c))

/- ================= Claim C4 ================= -/

/-- C4: for every input of fewer than 5 total cards, real_hand_evaluation
returns the explicit degraded result: a HighCard classification whose
tie-break key is the available cards' ranks sorted descending (the
InsufficientCards condition of the specification), for every choice of
HashMap iteration orders, instead of failing. -/
theorem c4_insufficient_cards_degrades_to_high_card
    (OS : Nat → IterOrders) (cards : List Card) (h : cards.length < 5) :
    real_hand_evaluation OS cards =
      { hand_strength := .HighCard, high_cards := sortDesc (cards.map Card.rank) } := by
  unfold real_hand_evaluation
  rw [if_pos h]
  rfl

/-- C4 witness: three concrete cards degrade to HighCard with key [13, 7, 2]. -/
theorem c4_witness :
    ([(⟨13, 1⟩ : Card), ⟨2, 2⟩, ⟨7, 3⟩].length < 5)
    ∧ real_hand_evaluation (fun _ => canonicalOrders []) [⟨13, 1⟩, ⟨2, 2⟩, ⟨7, 3⟩] =
        { hand_strength := .HighCard, high_cards := [13, 7, 2] } := by
  refine ⟨by decide, ?_⟩
  rw [c4_insufficient_cards_degrades_to_high_card (fun _ => canonicalOrders [])
    [⟨13, 1⟩, ⟨2, 2⟩, ⟨7, 3⟩] (by decide)]
  decide

/- ================= Claim C3 ================= -/

/-- C3 counterexample: the deck built at the start of a session (here from
the identity shuffle, a legitimate permutation of the 52 identities)
contains 9 cards, not all 52: init_deck_fast only generates 9 cards. -/
theorem c3_counterexample :
    (init_deck_fast TexasHoldemGame_new all_possible_cards).deck.length = 9
    ∧ (init_deck_fast TexasHoldemGame_new all_possible_cards).deck.length ≠ 52 := by
  decide

/-- C3 amended: whenever a hand starts, the freshly built deck is an
ordered sequence of 9 distinct (rank, suit) pairs drawn from the 52
(rank in 1..13, suit in 1..4) - not of all 52 pairs. -/
theorem c3_amended_deck_is_9_distinct_cards
    (s : GameState) (shuffled : List CardId) (h : shuffled.Perm all_possible_cards) :
    (init_deck_fast s shuffled).deck.length = 9
    ∧ (init_deck_fast s shuffled).deck.Nodup
    ∧ ∀ c ∈ (init_deck_fast s shuffled).deck,
        1 ≤ c.rank ∧ c.rank ≤ 13 ∧ 1 ≤ c.suit ∧ c.suit ≤ 4 := by
  have hlen : shuffled.length = 52 := by
    rw [h.length_eq]; decide
  have hnodup : shuffled.Nodup := h.nodup_iff.mpr (by decide)
  have hdeck : (init_deck_fast s shuffled).deck =
      (shuffled.take 9).map create_card_fast := rfl
  refine ⟨?_, ?_, ?_⟩
  · rw [hdeck, List.length_map, List.length_take, hlen]
    decide
  · rw [hdeck]
    refine List.Nodup.map ?_ (hnodup.sublist (List.take_sublist 9 shuffled))
    intro a b hab
    cases a; cases b
    simpa [create_card_fast, Card.mk.injEq, CardId.mk.injEq] using hab
  · rw [hdeck]
    intro c hc
    obtain ⟨id, hid, rfl⟩ := List.mem_map.mp hc
    have hmem : id ∈ all_possible_cards :=
      h.mem_iff.mp (List.mem_of_mem_take hid)
    have hbounds : ∀ x ∈ all_possible_cards,
        1 ≤ x.rank ∧ x.rank ≤ 13 ∧ 1 ≤ x.suit ∧ x.suit ≤ 4 := by decide
    exact hbounds id hmem

/-- C3 witness: the amended statement applied to the identity shuffle. -/
theorem c3_amended_witness :
    all_possible_cards.Perm all_possible_cards
    ∧ (init_deck_fast TexasHoldemGame_new all_possible_cards).deck.length = 9 :=
  ⟨List.Perm.refl _,
    (c3_amended_deck_is_9_distinct_cards TexasHoldemGame_new all_possible_cards
      (List.Perm.refl _)).1⟩

/- ================= Claim C1 ================= -/

set_option maxRecDepth 10000 in
/-- C1 (code bug): a fold on a non-first round awards the pot to the AI
and zeroes it, but does NOT end the hand: in this reachable state (player
bets at PreFlop, AI bets, then the player folds at Flop) the phase is
still Flop, the session is not over, the player has not acted, and the
Bet action is still offered, so betting continues in the same hand -
contradicting both the specification and the game-over message the code
itself displays on folding. -/
theorem c1_fold_does_not_end_hand :
    (runOk (init_session .Hard d1) [.PBet, .AIMove (.Bet 10), .PFold]).map
      (fun s => (s.ai_chips, s.pot, s.game_over, s.game_phase,
                 s.player_acted, event_allowed s .PBet))
    = some (110, 0, false, .Flop, false, true) := by
  decide

/- ================= Claim C2 ================= -/

set_option maxRecDepth 100000 in
/-- C2 counterexample: a reachable state immediately following a chip
transfer (the AI's fixed bet of 30 at the Turn in the second hand of this
session) in which the AI stack is -20 ≤ 0 while the session is still live
(game_over = false): perform_ai_action's bet branch never runs
check_game_end. -/
theorem c2_counterexample :
    (runOk (init_session .Hard d1)
      [.PBet, .AIMove (.Bet 10), .PBet, .AIMove (.Bet 20), .PBet, .AIMove (.Bet 30),
       .PBet, .AIMove .Check, .NextRound d2,
       .PBet, .AIMove (.Bet 10), .PBet, .AIMove (.Bet 20), .PBet, .AIMove (.Bet 30)]).map
      (fun s => (s.ai_chips, s.game_over, s.game_phase))
    = some (-20, false, .River) := by
  decide

/-- Helper: a state produced by check_game_end that still has a stack at
or below zero has the game-over flag set. -/
theorem check_game_end_post (t : GameState) :
    (check_game_end t).player_chips ≤ 0 ∨ (check_game_end t).ai_chips ≤ 0 →
    (check_game_end t).game_over = true := by
  by_cases hc : t.player_chips ≤ 0 ∨ t.ai_chips ≤ 0
  · intro _
    simp [check_game_end, hc]
  · intro h
    simp only [check_game_end, if_neg hc] at h
    exact absurd h hc

/-- C2 amended: a chip-stack check runs after a player bet placement (the
player's stack only), after a fold award and after a showdown settlement
(both stacks) - but not after an AI bet placement, so a live state can
follow an AI bet with ai_chips ≤ 0. -/
theorem c2_amended_transfer_checks (s : GameState) (amount : Nat) :
    ((place_bet s amount).player_chips ≤ 0 → (place_bet s amount).game_over = true)
    ∧ ((player_fold s).player_chips ≤ 0 ∨ (player_fold s).ai_chips ≤ 0 →
        (player_fold s).game_over = true)
    ∧ ((evaluate_showdown s).player_chips ≤ 0 ∨ (evaluate_showdown s).ai_chips ≤ 0 →
        (evaluate_showdown s).game_over = true) := by
  refine ⟨?_, check_game_end_post _, check_game_end_post _⟩
  intro h
  by_cases hc : s.player_chips - (amount : Int) ≤ 0
  · simp [place_bet, hc]
  · simp only [place_bet, if_neg hc] at h
    exact absurd h hc

/-- C2 amended witness: a player bet from a 5-chip stack ends the session,
a fold with a negative AI stack ends the session, and a tied zero-pot
showdown with a negative player stack ends the session. -/
theorem c2_amended_witness :
    (place_bet { TexasHoldemGame_new with player_chips := 5 } 10).game_over = true
    ∧ (player_fold { TexasHoldemGame_new with ai_chips := -50 }).game_over = true
    ∧ (evaluate_showdown { TexasHoldemGame_new with player_chips := -5 }).game_over = true :=
  ⟨(c2_amended_transfer_checks { TexasHoldemGame_new with player_chips := 5 } 10).1
      (by decide),
   (c2_amended_transfer_checks { TexasHoldemGame_new with ai_chips := -50 } 0).2.1
      (by decide),
   (c2_amended_transfer_checks { TexasHoldemGame_new with player_chips := -5 } 0).2.2
      (by decide)⟩

/- ================= Ordering helper lemmas ================= -/

theorem ordCompare_lt_iff (a b : Nat) : ordCompare a b = .lt ↔ a < b := by
  unfold ordCompare
  repeat' split
  all_goals simp_all

theorem ordCompare_gt_iff (a b : Nat) : ordCompare a b = .gt ↔ b < a := by
  unfold ordCompare
  repeat' split
  all_goals simp_all
  all_goals omega

theorem ordCompare_eq_iff (a b : Nat) : ordCompare a b = .eq ↔ a = b := by
  unfold ordCompare
  repeat' split
  all_goals simp_all
  all_goals omega

theorem ordCompare_self (a : Nat) : ordCompare a a = .eq := by
  simp [ordCompare_eq_iff]

/-- Unfolding equation for the key walk on a cons cell. -/
theorem zipCmpAux_cons (a b : Nat) (rest : List (Nat × Nat)) :
    zipCmpAux ((a, b) :: rest) =
      match ordCompare a b with
      | .eq => zipCmpAux rest
      | o => o := rfl

/-- The zipped key walk returns the comparison of the first differing
position when the keys agree strictly before it. -/
theorem zipCmpAux_first_diff :
    ∀ (l1 l2 : List Nat) (i : Nat),
      (∀ j, j < i → l1.getD j 0 = l2.getD j 0) →
      i < l1.length → i < l2.length →
      l1.getD i 0 ≠ l2.getD i 0 →
      zipCmpAux (l1.zip l2) = ordCompare (l1.getD i 0) (l2.getD i 0)
  | [], _, i, _, hi1, _, _ => absurd hi1 (by simp)
  | _ :: _, [], i, _, _, hi2, _ => absurd hi2 (by simp)
  | a :: t1, b :: t2, 0, _, _, _, hne => by
      simp only [List.getD_cons_zero] at hne ⊢
      rw [List.zip_cons_cons, zipCmpAux_cons]
      rcases h : ordCompare a b with _ | _ | _
      · rfl
      · exact absurd ((ordCompare_eq_iff a b).mp h) hne
      · rfl
  | a :: t1, b :: t2, i + 1, hpre, hi1, hi2, hne => by
      have hab : a = b := by
        have := hpre 0 (Nat.succ_pos i)
        simpa using this
      have hrec := zipCmpAux_first_diff t1 t2 i
        (fun j hj => by
          have := hpre (j + 1) (Nat.succ_lt_succ hj)
          simpa using this)
        (by simp only [List.length_cons] at hi1; omega)
        (by simp only [List.length_cons] at hi2; omega)
        (by simpa using hne)
      simp only [List.getD_cons_succ]
      rw [List.zip_cons_cons, zipCmpAux_cons, hab, ordCompare_self]
      exact hrec

/-- The zipped key walk returns Equal whenever the keys agree on the whole
zipped common prefix, regardless of the lengths beyond it. -/
theorem zipCmpAux_all_eq :
    ∀ (l1 l2 : List Nat),
      (∀ j, j < min l1.length l2.length → l1.getD j 0 = l2.getD j 0) →
      zipCmpAux (l1.zip l2) = .eq
  | [], l2, _ => by simp [zipCmpAux]
  | _ :: _, [], _ => by simp [zipCmpAux]
  | a :: t1, b :: t2, hpre => by
      have hab : a = b := by
        have := hpre 0 (by simp)
        simpa using this
      have hrec := zipCmpAux_all_eq t1 t2
        (fun j hj => by
          have := hpre (j + 1) (by simp only [List.length_cons]; omega)
          simpa using this)
      rw [List.zip_cons_cons, zipCmpAux_cons, hab, ordCompare_self]
      exact hrec

/- ================= Claim C5 ================= -/

/-- C5: compare_hand_results first compares the category ordinals; with
equal ordinals it walks the tie-break keys element-wise and returns the
comparison at the first differing position; and when all compared
positions (the zipped common prefix) agree it returns Equal even if the
key lengths differ. -/
theorem c5_compare_hand_results_shape :
    (∀ hand1 hand2 : HandResult,
      hand1.hand_strength.to_u8 ≠ hand2.hand_strength.to_u8 →
      compare_hand_results hand1 hand2 =
        ordCompare hand1.hand_strength.to_u8 hand2.hand_strength.to_u8)
    ∧ (∀ (hand1 hand2 : HandResult) (i : Nat),
      hand1.hand_strength.to_u8 = hand2.hand_strength.to_u8 →
      (∀ j, j < i → hand1.high_cards.getD j 0 = hand2.high_cards.getD j 0) →
      i < hand1.high_cards.length → i < hand2.high_cards.length →
      hand1.high_cards.getD i 0 ≠ hand2.high_cards.getD i 0 →
      compare_hand_results hand1 hand2 =
        ordCompare (hand1.high_cards.getD i 0) (hand2.high_cards.getD i 0))
    ∧ (∀ hand1 hand2 : HandResult,
      hand1.hand_strength.to_u8 = hand2.hand_strength.to_u8 →
      (∀ j, j < min hand1.high_cards.length hand2.high_cards.length →
        hand1.high_cards.getD j 0 = hand2.high_cards.getD j 0) →
      compare_hand_results hand1 hand2 = .eq) := by
  refine ⟨?_, ?_, ?_⟩
  · intro hand1 hand2 hne
    rcases h : ordCompare hand1.hand_strength.to_u8 hand2.hand_strength.to_u8 with _ | _ | _
    · simp [compare_hand_results, h]
    · exact absurd ((ordCompare_eq_iff _ _).mp h) hne
    · simp [compare_hand_results, h]
  · intro hand1 hand2 i heq hpre hi1 hi2 hne
    have hs : ordCompare hand1.hand_strength.to_u8 hand2.hand_strength.to_u8 = .eq := by
      rw [heq]; exact ordCompare_self _
    simp only [compare_hand_results, hs]
    exact zipCmpAux_first_diff _ _ i hpre hi1 hi2 hne
  · intro hand1 hand2 heq hpre
    have hs : ordCompare hand1.hand_strength.to_u8 hand2.hand_strength.to_u8 = .eq := by
      rw [heq]; exact ordCompare_self _
    simp only [compare_hand_results, hs]
    exact zipCmpAux_all_eq _ _ hpre

/-- C5 witness: a category difference (Flush beats Straight), a first key
difference at index 1 (11 beats 9), and the length-mismatch edge case
([8, 11, 5, 2] against [8, 11, 5] is declared Equal). -/
theorem c5_witness :
    compare_hand_results ⟨.Flush, [1]⟩ ⟨.Straight, [9, 9, 9, 9, 9]⟩ = .gt
    ∧ compare_hand_results ⟨.OnePair, [8, 11, 5, 2]⟩ ⟨.OnePair, [8, 9, 5]⟩ = .gt
    ∧ compare_hand_results ⟨.OnePair, [8, 11, 5, 2]⟩ ⟨.OnePair, [8, 11, 5]⟩ = .eq := by
  refine ⟨?_, ?_, ?_⟩
  · rw [c5_compare_hand_results_shape.1 ⟨.Flush, [1]⟩ ⟨.Straight, [9, 9, 9, 9, 9]⟩
      (by decide)]
    decide
  · rw [c5_compare_hand_results_shape.2.1 ⟨.OnePair, [8, 11, 5, 2]⟩ ⟨.OnePair, [8, 9, 5]⟩ 1
      (by decide)
      (by intro j hj; have hj0 : j = 0 := by omega
          subst hj0; decide)
      (by decide) (by decide) (by decide)]
    decide
  · exact c5_compare_hand_results_shape.2.2 ⟨.OnePair, [8, 11, 5, 2]⟩ ⟨.OnePair, [8, 11, 5]⟩
      (by decide)
      (by intro j hj
          have hj3 : j < 3 := by simpa using hj
          interval_cases j <;> decide)

/- ================= Sorting helper lemmas ================= -/

instance : IsTotal Nat (fun a b => b ≤ a) := ⟨fun a b => le_total b a⟩

instance : IsTrans Nat (fun a b => b ≤ a) := ⟨fun _ _ _ h1 h2 => le_trans h2 h1⟩

instance : IsAntisymm Nat (fun a b => b ≤ a) := ⟨fun _ _ h1 h2 => le_antisymm h2 h1⟩

theorem sortDesc_perm (l : List Nat) : (sortDesc l).Perm l :=
  List.perm_insertionSort _ l

theorem sortDesc_sorted (l : List Nat) : List.Sorted (fun a b => b ≤ a) (sortDesc l) :=
  List.sorted_insertionSort _ l

/-- Sorting descending is invariant under permutation of the input. -/
theorem sortDesc_eq_of_perm {l l' : List Nat} (h : l.Perm l') : sortDesc l = sortDesc l' :=
  List.eq_of_perm_of_sorted ((sortDesc_perm l).trans (h.trans (sortDesc_perm l').symm))
    (sortDesc_sorted l) (sortDesc_sorted l')

/- ================= Claim C6 ================= -/

/-- C6: every 5-card hand whose ranks are a permutation of {1,2,3,4,5}
with mixed suits (the code's flush test is false) evaluates to Straight
with tie-break key [5], and no hand whose ranks are a permutation of
{10,11,12,13,1} is ever classified as Straight or StraightFlush: the Ace
never serves as the high end of a run. -/
theorem c6_wheel_straight_and_no_ace_high :
    (∀ cards : List Card,
      (cards.map Card.rank).Perm [1, 2, 3, 4, 5] →
      is_flush_b (cards.map Card.suit) = false →
      evaluate_five_card_hand_c cards =
        { hand_strength := .Straight, high_cards := [5] })
    ∧ (∀ cards : List Card,
      (cards.map Card.rank).Perm [10, 11, 12, 13, 1] →
      (evaluate_five_card_hand_c cards).hand_strength ≠ .Straight
      ∧ (evaluate_five_card_hand_c cards).hand_strength ≠ .StraightFlush) := by
  constructor
  · intro cards hperm hflush
    have hr : sortDesc (cards.map Card.rank) = [5, 4, 3, 2, 1] := by
      rw [sortDesc_eq_of_perm hperm]
      decide
    unfold evaluate_five_card_hand_c evaluate_five_card_hand
    rw [hr, hflush]
    decide
  · intro cards hperm
    have hr : sortDesc (cards.map Card.rank) = [13, 12, 11, 10, 1] := by
      rw [sortDesc_eq_of_perm hperm]
      decide
    unfold evaluate_five_card_hand_c evaluate_five_card_hand
    rw [hr]
    cases hf : is_flush_b (cards.map Card.suit) <;> decide

/-- C6 witness: the wheel with mixed suits evaluates to Straight [5], and
10-J-Q-K-A with mixed suits is not classified as any straight. -/
theorem c6_witness :
    evaluate_five_card_hand_c [⟨1, 1⟩, ⟨2, 2⟩, ⟨3, 3⟩, ⟨4, 4⟩, ⟨5, 1⟩] =
      { hand_strength := .Straight, high_cards := [5] }
    ∧ (evaluate_five_card_hand_c [⟨10, 1⟩, ⟨11, 2⟩, ⟨12, 3⟩, ⟨13, 4⟩, ⟨1, 1⟩]).hand_strength
        ≠ .Straight :=
  ⟨c6_wheel_straight_and_no_ace_high.1 [⟨1, 1⟩, ⟨2, 2⟩, ⟨3, 3⟩, ⟨4, 4⟩, ⟨5, 1⟩]
      (by decide) (by decide),
   (c6_wheel_straight_and_no_ace_high.2 [⟨10, 1⟩, ⟨11, 2⟩, ⟨12, 3⟩, ⟨13, 4⟩, ⟨1, 1⟩]
      (by decide)).1⟩

/- ================= Preservation helper lemmas ================= -/

theorem place_bet_hu (s : GameState) (amount : Nat) :
    (place_bet s amount).has_used_special_action = s.has_used_special_action := by
  simp only [place_bet]
  split <;> rfl

theorem check_game_end_hu (s : GameState) :
    (check_game_end s).has_used_special_action = s.has_used_special_action := by
  unfold check_game_end
  split <;> rfl

theorem evaluate_showdown_settle_hu (s : GameState) :
    (evaluate_showdown_settle s).has_used_special_action = s.has_used_special_action := by
  simp only [evaluate_showdown_settle]
  split <;> rfl

theorem evaluate_showdown_hu (s : GameState) :
    (evaluate_showdown s).has_used_special_action = s.has_used_special_action := by
  unfold evaluate_showdown
  rw [check_game_end_hu, evaluate_showdown_settle_hu]

theorem advance_phase_hu (s : GameState) :
    (advance_phase s).has_used_special_action = s.has_used_special_action := by
  simp only [advance_phase]
  split
  · rfl
  · rfl
  · rfl
  · rw [evaluate_showdown_hu]
  · rfl

theorem check_round_end_hu (s : GameState) :
    (check_round_end s).has_used_special_action = s.has_used_special_action := by
  unfold check_round_end
  split
  · rw [advance_phase_hu]
  · rfl

theorem perform_ai_action_hu (s : GameState) (a : AiAction) :
    (perform_ai_action s a).has_used_special_action = s.has_used_special_action := by
  unfold perform_ai_action
  split
  · rfl
  · split <;> rw [check_round_end_hu]

/- ================= Claim C7 ================= -/

/-- C7: a hand starts with first_round = true and
has_used_special_action = false (both at session start and at every next
hand); whenever the betting buttons are shown (game live, phase not
Showdown, AI not thinking, player not yet acted) Check and Fold are
offered exactly when the round is not the first and the special action is
unused; once has_used_special_action is true, every event except starting
the next hand keeps it true, so Check and Fold stay unavailable for the
rest of the hand; and a Check moves no chips. -/
theorem c7_special_action_protocol :
    (∀ (d : GameDifficulty) (shuffled : List CardId),
      (init_session d shuffled).first_round = true
      ∧ (init_session d shuffled).has_used_special_action = false)
    ∧ (∀ (s : GameState) (shuffled : List CardId),
      (apply_event s (.NextRound shuffled)).first_round = true
      ∧ (apply_event s (.NextRound shuffled)).has_used_special_action = false)
    ∧ (∀ s : GameState,
      s.game_over = false → s.game_phase ≠ .Showdown → s.waiting_for_ai = false →
      s.player_acted = false →
      ((event_allowed s .PCheck = true ∧ event_allowed s .PFold = true) ↔
        (s.first_round = false ∧ s.has_used_special_action = false)))
    ∧ (∀ (s : GameState) (e : GEvent),
      (∀ shuffled, e ≠ .NextRound shuffled) →
      s.has_used_special_action = true →
      (apply_event s e).has_used_special_action = true)
    ∧ (∀ s : GameState,
      (apply_event s .PCheck).player_chips = s.player_chips
      ∧ (apply_event s .PCheck).ai_chips = s.ai_chips
      ∧ (apply_event s .PCheck).pot = s.pot) := by
  refine ⟨?_, ?_, ?_, ?_, ?_⟩
  · intro d shuffled
    exact ⟨rfl, rfl⟩
  · intro s shuffled
    exact ⟨rfl, rfl⟩
  · intro s hgo hphase hwait hacted
    simp [event_allowed, hgo, hwait, hacted, hphase]
  · intro s e hne hused
    cases e with
    | PBet =>
        show (place_bet s (get_fixed_bet_amount s)).has_used_special_action = true
        rw [place_bet_hu]
        exact hused
    | PCheck => rfl
    | PFold => rfl
    | AIMove a =>
        show (perform_ai_action { s with waiting_for_ai := false } a).has_used_special_action
          = true
        rw [perform_ai_action_hu]
        exact hused
    | NextRound shuffled => exact absurd rfl (hne shuffled)
  · intro s
    exact ⟨rfl, rfl, rfl⟩

/-- C7 witness: at a live non-first-round state with the special action
unused Check and Fold are both offered, and a bet after the special action
was used keeps it used. -/
theorem c7_witness :
    (event_allowed { TexasHoldemGame_new with first_round := false } .PCheck = true
      ∧ event_allowed { TexasHoldemGame_new with first_round := false } .PFold = true)
    ∧ (apply_event { TexasHoldemGame_new with has_used_special_action := true }
        .PBet).has_used_special_action = true :=
  ⟨(c7_special_action_protocol.2.2.1 { TexasHoldemGame_new with first_round := false }
      rfl (by decide) rfl rfl).mpr ⟨rfl, rfl⟩,
   c7_special_action_protocol.2.2.2.1
      { TexasHoldemGame_new with has_used_special_action := true } .PBet
      (fun _ h => nomatch h) rfl⟩

/- ================= Counting helper lemmas ================= -/

theorem count_two_le (l : List Nat) (a b : Nat) (hab : a ≠ b) :
    l.count a + l.count b ≤ l.length := by
  induction l with
  | nil => simp
  | cons x l ih =>
    simp only [List.count_cons, List.length_cons]
    split <;> split
    all_goals simp_all
    all_goals omega

theorem count_three_le (l : List Nat) (a b c : Nat)
    (hab : a ≠ b) (hac : a ≠ c) (hbc : b ≠ c) :
    l.count a + l.count b + l.count c ≤ l.length := by
  induction l with
  | nil => simp
  | cons x l ih =>
    simp only [List.count_cons, List.length_cons]
    split <;> split <;> split
    all_goals simp_all
    all_goals omega

theorem length_filter_ne (l : List Nat) (t : Nat) :
    (l.filter (fun r => r != t)).length = l.length - l.count t := by
  induction l with
  | nil => rfl
  | cons a l ih =>
    have hcle : l.count t ≤ l.length := List.count_le_length t l
    simp only [List.filter_cons, List.count_cons, List.length_cons]
    split <;> split
    all_goals simp_all [bne_iff_ne]
    all_goals omega

/-- A successful n-of-a-kind lookup returns a rank whose count is n. -/
theorem has_n_count {ranks : List Nat} {n t : Nat} {o : List Nat}
    (h : has_n_of_a_kind ranks n o = some t) : ranks.count t = n := by
  have h' : o.find? (fun r => ranks.count r == n) = some t := h
  have := List.find?_some h'
  simpa using this

theorem sortDesc_length (l : List Nat) : (sortDesc l).length = l.length :=
  (sortDesc_perm l).length_eq

/- ================= Key length of evaluation results ================= -/

/-- Length of the tie-break key produced for each category by
evaluate_five_card_hand on a 5-card hand. -/
def keyLen : HandStrength → Nat
  | .HighCard => 5
  | .OnePair => 4
  | .TwoPair => 3
  | .ThreeOfAKind => 3
  | .Straight => 1
  | .Flush => 5
  | .FullHouse => 2
  | .FourOfAKind => 2
  | .StraightFlush => 1

theorem efch_stage4_key_length (O : IterOrders) (ranks : List Nat) (isf iss : Bool)
    (h5 : ranks.length = 5) :
    (efch_stage4 O ranks isf iss).high_cards.length =
      keyLen (efch_stage4 O ranks isf iss).hand_strength := by
  simp only [efch_stage4]
  split
  · exact h5
  · split
    · rfl
    · split
      · rename_i t ht
        have hcount : ranks.count t = 3 := has_n_count ht
        simp only [List.length_cons, List.length_take, sortDesc_length, length_filter_ne,
          hcount, h5, keyLen]
        omega
      · split
        · rfl
        · split
          · rename_i pr hpr
            have hcount : ranks.count pr = 2 := has_n_count hpr
            simp only [List.length_cons, List.length_take, sortDesc_length, length_filter_ne,
              hcount, h5, keyLen]
            omega
          · exact h5

theorem efch_key_length (O : IterOrders) (ranks : List Nat) (isf : Bool)
    (h5 : ranks.length = 5) :
    (efch_main O ranks isf).high_cards.length =
      keyLen (efch_main O ranks isf).hand_strength := by
  simp only [efch_main]
  split
  · rfl
  · simp only [efch_stage2]
    split
    · rfl
    · split
      · split
        · split
          · rfl
          · exact efch_stage4_key_length O ranks isf _ h5
        · exact efch_stage4_key_length O ranks isf _ h5
      · exact efch_stage4_key_length O ranks isf _ h5

/-- Every result of the canonical evaluator on a 5-card hand carries the
key length its category dictates. -/
theorem evaluate_wf (cards : List Card) (h5 : cards.length = 5) :
    (evaluate_five_card_hand_c cards).high_cards.length =
      keyLen (evaluate_five_card_hand_c cards).hand_strength := by
  unfold evaluate_five_card_hand_c evaluate_five_card_hand
  exact efch_key_length _ _ _ (by rw [sortDesc_length, List.length_map, h5])

/- ================= Comparison preorder lemmas ================= -/

theorem zipCmpAux_self : ∀ l : List Nat, zipCmpAux (l.zip l) = .eq
  | [] => rfl
  | a :: t => by
      rw [List.zip_cons_cons, zipCmpAux_cons, ordCompare_self]
      exact zipCmpAux_self t

theorem zipCmpAux_swap : ∀ l1 l2 : List Nat,
    zipCmpAux (l2.zip l1) = (zipCmpAux (l1.zip l2)).swap
  | [], [] => rfl
  | [], _ :: _ => rfl
  | _ :: _, [] => rfl
  | a :: t1, b :: t2 => by
      rw [List.zip_cons_cons, List.zip_cons_cons, zipCmpAux_cons, zipCmpAux_cons]
      rcases h : ordCompare a b with _ | _ | _
      · have h' : ordCompare b a = .gt :=
          (ordCompare_gt_iff b a).mpr ((ordCompare_lt_iff a b).mp h)
        rw [h']
        rfl
      · have hab : a = b := (ordCompare_eq_iff a b).mp h
        have h' : ordCompare b a = .eq := (ordCompare_eq_iff b a).mpr hab.symm
        rw [h']
        exact zipCmpAux_swap t1 t2
      · have h' : ordCompare b a = .lt :=
          (ordCompare_lt_iff b a).mpr ((ordCompare_gt_iff a b).mp h)
        rw [h']
        rfl

theorem zipCmpAux_trans_ne_lt : ∀ l1 l2 l3 : List Nat,
    l1.length = l2.length → l2.length = l3.length →
    zipCmpAux (l1.zip l2) ≠ .lt → zipCmpAux (l2.zip l3) ≠ .lt →
    zipCmpAux (l1.zip l3) ≠ .lt
  | [], [], [], _, _, _, _ => by simp [zipCmpAux]
  | [], b :: t2, _, hl, _, _, _ => by simp at hl
  | a :: t1, [], _, hl, _, _, _ => by simp at hl
  | _ :: _, b :: t2, [], _, hl, _, _ => by simp at hl
  | a :: t1, b :: t2, c :: t3, hl12, hl23, h12, h23 => by
      rw [List.zip_cons_cons, zipCmpAux_cons] at h12 h23 ⊢
      rcases hab : ordCompare a b with _ | _ | _ <;> rw [hab] at h12
      · exact absurd rfl h12
      · rcases hbc : ordCompare b c with _ | _ | _ <;> rw [hbc] at h23
        · exact absurd rfl h23
        · have hac : ordCompare a c = .eq := by
            rw [ordCompare_eq_iff] at hab hbc ⊢
            omega
          rw [hac]
          exact zipCmpAux_trans_ne_lt t1 t2 t3 (by simpa using hl12) (by simpa using hl23)
            h12 h23
        · have hac : ordCompare a c = .gt := by
            rw [ordCompare_eq_iff] at hab
            rw [ordCompare_gt_iff] at hbc ⊢
            omega
          rw [hac]
          simp
      · rcases hbc : ordCompare b c with _ | _ | _ <;> rw [hbc] at h23
        · exact absurd rfl h23
        · have hac : ordCompare a c = .gt := by
            rw [ordCompare_gt_iff] at hab ⊢
            rw [ordCompare_eq_iff] at hbc
            omega
          rw [hac]
          simp
        · have hac : ordCompare a c = .gt := by
            rw [ordCompare_gt_iff] at hab hbc ⊢
            omega
          rw [hac]
          simp

theorem to_u8_inj : ∀ {x y : HandStrength}, x.to_u8 = y.to_u8 → x = y := by
  intro x y h
  cases x <;> cases y <;> simp_all [HandStrength.to_u8]

theorem compare_hand_results_refl (r : HandResult) : compare_hand_results r r = .eq := by
  simp only [compare_hand_results, ordCompare_self]
  exact zipCmpAux_self _

theorem compare_hand_results_swap (r1 r2 : HandResult) :
    compare_hand_results r2 r1 = (compare_hand_results r1 r2).swap := by
  simp only [compare_hand_results]
  rcases h : ordCompare r1.hand_strength.to_u8 r2.hand_strength.to_u8 with _ | _ | _
  · have h' : ordCompare r2.hand_strength.to_u8 r1.hand_strength.to_u8 = .gt :=
      (ordCompare_gt_iff _ _).mpr ((ordCompare_lt_iff _ _).mp h)
    rw [h']
    rfl
  · have heq := (ordCompare_eq_iff _ _).mp h
    have h' : ordCompare r2.hand_strength.to_u8 r1.hand_strength.to_u8 = .eq :=
      (ordCompare_eq_iff _ _).mpr heq.symm
    rw [h']
    exact zipCmpAux_swap _ _
  · have h' : ordCompare r2.hand_strength.to_u8 r1.hand_strength.to_u8 = .lt :=
      (ordCompare_lt_iff _ _).mpr ((ordCompare_gt_iff _ _).mp h)
    rw [h']
    rfl

theorem compare_hand_results_trans_ne_lt (r1 r2 r3 : HandResult)
    (w1 : r1.high_cards.length = keyLen r1.hand_strength)
    (w2 : r2.high_cards.length = keyLen r2.hand_strength)
    (w3 : r3.high_cards.length = keyLen r3.hand_strength)
    (h12 : compare_hand_results r1 r2 ≠ .lt)
    (h23 : compare_hand_results r2 r3 ≠ .lt) :
    compare_hand_results r1 r3 ≠ .lt := by
  simp only [compare_hand_results] at h12 h23 ⊢
  rcases hab : ordCompare r1.hand_strength.to_u8 r2.hand_strength.to_u8 with _ | _ | _
    <;> rw [hab] at h12
  · exact absurd rfl h12
  · rcases hbc : ordCompare r2.hand_strength.to_u8 r3.hand_strength.to_u8 with _ | _ | _
      <;> rw [hbc] at h23
    · exact absurd rfl h23
    · have hs12 : r1.hand_strength = r2.hand_strength :=
        to_u8_inj ((ordCompare_eq_iff _ _).mp hab)
      have hs23 : r2.hand_strength = r3.hand_strength :=
        to_u8_inj ((ordCompare_eq_iff _ _).mp hbc)
      have hac : ordCompare r1.hand_strength.to_u8 r3.hand_strength.to_u8 = .eq := by
        rw [hs12, hs23, ordCompare_self]
      rw [hac]
      exact zipCmpAux_trans_ne_lt _ _ _
        (by rw [w1, w2, hs12]) (by rw [w2, w3, hs23]) h12 h23
    · have hac : ordCompare r1.hand_strength.to_u8 r3.hand_strength.to_u8 = .gt := by
        rw [ordCompare_eq_iff] at hab
        rw [ordCompare_gt_iff] at hbc ⊢
        omega
      rw [hac]
      simp
  · rcases hbc : ordCompare r2.hand_strength.to_u8 r3.hand_strength.to_u8 with _ | _ | _
      <;> rw [hbc] at h23
    · exact absurd rfl h23
    · have hac : ordCompare r1.hand_strength.to_u8 r3.hand_strength.to_u8 = .gt := by
        rw [ordCompare_gt_iff] at hab ⊢
        rw [ordCompare_eq_iff] at hbc
        omega
      rw [hac]
      simp
    · have hac : ordCompare r1.hand_strength.to_u8 r3.hand_strength.to_u8 = .gt := by
        rw [ordCompare_gt_iff] at hab hbc ⊢
        omega
      rw [hac]
      simp

/- ================= Claim C8 ================= -/

/-- C8: restricted to results of evaluate_five_card_hand on 5-card hands,
compare_hand_results is a total preorder: reflexive, antisymmetric up to
declared ties (Greater one way forces Less the other way), and transitive
in the Greater-or-Equal direction. -/
theorem c8_compare_total_preorder (cardsA cardsB cardsC : List Card)
    (hA : cardsA.length = 5) (hB : cardsB.length = 5) (hC : cardsC.length = 5) :
    compare_hand_results (evaluate_five_card_hand_c cardsA) (evaluate_five_card_hand_c cardsA)
      = .eq
    ∧ (compare_hand_results (evaluate_five_card_hand_c cardsA) (evaluate_five_card_hand_c cardsB)
        = .gt →
      compare_hand_results (evaluate_five_card_hand_c cardsB) (evaluate_five_card_hand_c cardsA)
        = .lt)
    ∧ (compare_hand_results (evaluate_five_card_hand_c cardsA) (evaluate_five_card_hand_c cardsB)
        ≠ .lt →
      compare_hand_results (evaluate_five_card_hand_c cardsB) (evaluate_five_card_hand_c cardsC)
        ≠ .lt →
      compare_hand_results (evaluate_five_card_hand_c cardsA) (evaluate_five_card_hand_c cardsC)
        ≠ .lt) := by
  refine ⟨compare_hand_results_refl _, ?_, ?_⟩
  · intro hgt
    rw [compare_hand_results_swap, hgt]
    rfl
  · exact compare_hand_results_trans_ne_lt _ _ _
      (evaluate_wf cardsA hA) (evaluate_wf cardsB hB) (evaluate_wf cardsC hC)

/-- C8 witness: the preorder facts instantiated at three concrete 5-card
hands (a pair of eights, a pair of sevens, a high card). -/
theorem c8_witness :
    compare_hand_results
      (evaluate_five_card_hand_c [⟨8, 1⟩, ⟨8, 2⟩, ⟨2, 1⟩, ⟨5, 2⟩, ⟨11, 3⟩])
      (evaluate_five_card_hand_c [⟨8, 1⟩, ⟨8, 2⟩, ⟨2, 1⟩, ⟨5, 2⟩, ⟨11, 3⟩]) = .eq
    ∧ compare_hand_results
        (evaluate_five_card_hand_c [⟨7, 1⟩, ⟨7, 2⟩, ⟨2, 1⟩, ⟨5, 2⟩, ⟨11, 3⟩])
        (evaluate_five_card_hand_c [⟨2, 2⟩, ⟨6, 2⟩, ⟨8, 3⟩, ⟨5, 1⟩, ⟨11, 4⟩]) ≠ .lt := by
  constructor
  · exact (c8_compare_total_preorder
      [⟨8, 1⟩, ⟨8, 2⟩, ⟨2, 1⟩, ⟨5, 2⟩, ⟨11, 3⟩]
      [⟨7, 1⟩, ⟨7, 2⟩, ⟨2, 1⟩, ⟨5, 2⟩, ⟨11, 3⟩]
      [⟨2, 2⟩, ⟨6, 2⟩, ⟨8, 3⟩, ⟨5, 1⟩, ⟨11, 4⟩]
      (by decide) (by decide) (by decide)).1
  · exact (c8_compare_total_preorder
      [⟨7, 1⟩, ⟨7, 2⟩, ⟨2, 1⟩, ⟨5, 2⟩, ⟨11, 3⟩]
      [⟨7, 1⟩, ⟨7, 2⟩, ⟨2, 1⟩, ⟨5, 2⟩, ⟨11, 3⟩]
      [⟨2, 2⟩, ⟨6, 2⟩, ⟨8, 3⟩, ⟨5, 1⟩, ⟨11, 4⟩]
      (by decide) (by decide) (by decide)).2.2
      (by rw [compare_hand_results_refl]; decide)
      (by decide)

/- ================= HashMap-order invariance (toward C9) ================= -/

/-- find? over a permuted enumeration is unchanged when at most one value
satisfies the predicate. -/
theorem find?_congr_perm (p : Nat → Bool) {o o' : List Nat} (h : o.Perm o')
    (uniq : ∀ a b, p a = true → p b = true → a = b) :
    o.find? p = o'.find? p := by
  cases ho : o.find? p with
  | none =>
    cases ho' : o'.find? p with
    | none => rfl
    | some y =>
      have hy := List.find?_some ho'
      have hmem : y ∈ o := h.mem_iff.mpr (List.mem_of_find?_eq_some ho')
      exact absurd hy (List.find?_eq_none.mp ho y hmem)
  | some x =>
    have hx := List.find?_some ho
    have hmemx : x ∈ o' := h.mem_iff.mp (List.mem_of_find?_eq_some ho)
    cases ho' : o'.find? p with
    | none => exact absurd hx (List.find?_eq_none.mp ho' x hmemx)
    | some y =>
      have hy := List.find?_some ho'
      rw [uniq x y hx hy]

theorem has_n_congr (ranks : List Nat) (n : Nat) {o o' : List Nat} (h : o.Perm o')
    (uniq : ∀ a b, ranks.count a = n → ranks.count b = n → a = b) :
    has_n_of_a_kind ranks n o = has_n_of_a_kind ranks n o' :=
  find?_congr_perm _ h (fun a b ha hb => uniq a b (by simpa using ha) (by simpa using hb))

/-- At most one rank can occur n ≥ 3 times among 5 cards. -/
theorem count_eq_unique (ranks : List Nat) (h5 : ranks.length = 5) {n : Nat} (hn : 3 ≤ n)
    (a b : Nat) (ha : ranks.count a = n) (hb : ranks.count b = n) : a = b := by
  by_contra hab
  have := count_two_le ranks a b hab
  omega

theorem get_pairs_congr (ranks : List Nat) {o o' : List Nat} (h : o.Perm o') :
    get_pairs ranks o = get_pairs ranks o' := by
  simp only [get_pairs]
  rw [sortDesc_eq_of_perm (h.filter _)]

/-- A list containing two distinct elements has a head and a second entry. -/
theorem two_mem_shape (l : List Nat) (x y : Nat) (hx : x ∈ l) (hy : y ∈ l) (hxy : x ≠ y) :
    ∃ p0 p1 tail, l = p0 :: p1 :: tail := by
  match l with
  | [] => cases hx
  | [z] =>
    have hxz : x = z := by simpa using hx
    have hyz : y = z := by simpa using hy
    exact absurd (hxz.trans hyz.symm) hxy
  | p0 :: p1 :: tail => exact ⟨p0, p1, tail, rfl⟩

/-- Two distinct ranks of count at least two force get_pairs to return at
least two pairs. -/
theorem get_pairs_two_mem (ranks : List Nat) (a b : Nat) (hab : a ≠ b)
    (ha : 2 ≤ ranks.count a) (hb : 2 ≤ ranks.count b) :
    ∃ p0 p1 tail, get_pairs ranks ranks.dedup = some (p0 :: p1 :: tail) := by
  have hamem : a ∈ ranks := List.count_pos_iff.mp (by omega)
  have hbmem : b ∈ ranks := List.count_pos_iff.mp (by omega)
  have hfa : a ∈ ranks.dedup.filter (fun r => decide (2 ≤ ranks.count r)) :=
    List.mem_filter.mpr ⟨List.mem_dedup.mpr hamem, by simpa using ha⟩
  have hfb : b ∈ ranks.dedup.filter (fun r => decide (2 ≤ ranks.count r)) :=
    List.mem_filter.mpr ⟨List.mem_dedup.mpr hbmem, by simpa using hb⟩
  have hsa : a ∈ sortDesc (ranks.dedup.filter (fun r => decide (2 ≤ ranks.count r))) :=
    (sortDesc_perm _).mem_iff.mpr hfa
  have hsb : b ∈ sortDesc (ranks.dedup.filter (fun r => decide (2 ≤ ranks.count r))) :=
    (sortDesc_perm _).mem_iff.mpr hfb
  obtain ⟨p0, p1, tail, hlist⟩ := two_mem_shape _ a b hsa hsb hab
  refine ⟨p0, p1, tail, ?_⟩
  simp only [get_pairs, hlist]
  rfl

theorem efch_stage4_invariant (O : IterOrders) (ranks : List Nat) (isf iss : Bool)
    (h5 : ranks.length = 5) (hv : validOrders O ranks) :
    efch_stage4 O ranks isf iss = efch_stage4 (canonicalOrders ranks) ranks isf iss := by
  obtain ⟨hv4, hv3f, hv2f, hv3, hv2, hvp⟩ := hv
  have h3 : has_n_of_a_kind ranks 3 O.oThree
      = has_n_of_a_kind ranks 3 (canonicalOrders ranks).oThree :=
    has_n_congr ranks 3 hv3 (fun a b ha hb => count_eq_unique ranks h5 (by omega) a b ha hb)
  have hp : get_pairs ranks O.oPairs = get_pairs ranks (canonicalOrders ranks).oPairs :=
    get_pairs_congr ranks hvp
  simp only [efch_stage4]
  rw [h3, hp]
  cases h3v : has_n_of_a_kind ranks 3 (canonicalOrders ranks).oThree with
  | some t => rfl
  | none =>
    have h2cong :
        (∀ p0 p1 tail,
          get_pairs ranks (canonicalOrders ranks).oPairs ≠ some (p0 :: p1 :: tail)) →
        has_n_of_a_kind ranks 2 O.oTwoOP
          = has_n_of_a_kind ranks 2 (canonicalOrders ranks).oTwoOP := by
      intro hfall
      exact has_n_congr ranks 2 hv2 (fun a b ha hb => by
        by_contra hab
        obtain ⟨p0, p1, tail, hps⟩ := get_pairs_two_mem ranks a b hab (by omega) (by omega)
        exact hfall p0 p1 tail hps)
    rcases hgp : get_pairs ranks (canonicalOrders ranks).oPairs
      with _ | (_ | ⟨p0, _ | ⟨p1, tail⟩⟩)
    · rw [h2cong (by simp [hgp])]
    · rw [h2cong (by simp [hgp])]
    · rw [h2cong (by simp [hgp])]
    · rfl

theorem efch_stage2_invariant (O : IterOrders) (ranks : List Nat) (isf iss : Bool)
    (h5 : ranks.length = 5) (hv : validOrders O ranks) :
    efch_stage2 O ranks isf iss = efch_stage2 (canonicalOrders ranks) ranks isf iss := by
  have hst4 : efch_stage4 O ranks isf iss = efch_stage4 (canonicalOrders ranks) ranks isf iss :=
    efch_stage4_invariant O ranks isf iss h5 hv
  obtain ⟨hv4, hv3f, hv2f, hv3, hv2, hvp⟩ := hv
  have h4 : has_n_of_a_kind ranks 4 O.oFour
      = has_n_of_a_kind ranks 4 (canonicalOrders ranks).oFour :=
    has_n_congr ranks 4 hv4 (fun a b ha hb => count_eq_unique ranks h5 (by omega) a b ha hb)
  have h3f : has_n_of_a_kind ranks 3 O.oThreeFH
      = has_n_of_a_kind ranks 3 (canonicalOrders ranks).oThreeFH :=
    has_n_congr ranks 3 hv3f (fun a b ha hb => count_eq_unique ranks h5 (by omega) a b ha hb)
  simp only [efch_stage2]
  rw [h4, h3f, hst4]
  cases h3v : has_n_of_a_kind ranks 3 (canonicalOrders ranks).oThreeFH with
  | none => rfl
  | some t =>
    have ht : ranks.count t = 3 := has_n_count h3v
    have h2f : has_n_of_a_kind ranks 2 O.oTwoFH
        = has_n_of_a_kind ranks 2 (canonicalOrders ranks).oTwoFH :=
      has_n_congr ranks 2 hv2f (fun a b ha hb => by
        by_contra hab
        have hat : a ≠ t := fun h => by rw [h] at ha; omega
        have hbt : b ≠ t := fun h => by rw [h] at hb; omega
        have := count_three_le ranks a b t hab hat hbt
        omega)
    rw [h2f]

theorem efch_orders_invariant (O : IterOrders) (ranks : List Nat) (isf : Bool)
    (h5 : ranks.length = 5) (hv : validOrders O ranks) :
    efch_main O ranks isf = efch_main (canonicalOrders ranks) ranks isf := by
  simp only [efch_main]
  split
  · rfl
  · exact efch_stage2_invariant O ranks isf _ h5 hv

/-- A single 5-card evaluation is independent of the HashMap iteration
orders. -/
theorem evaluate_orders_invariant (O : IterOrders) (cards : List Card)
    (h5 : cards.length = 5) (hv : validOrders O (sortDesc (cards.map Card.rank))) :
    evaluate_five_card_hand O cards = evaluate_five_card_hand_c cards := by
  unfold evaluate_five_card_hand evaluate_five_card_hand_c evaluate_five_card_hand
  exact efch_orders_invariant O _ _ (by rw [sortDesc_length, List.length_map, h5]) hv

/-- Every combination produced for k = 5 has exactly 5 cards. -/
theorem kCombos_length : ∀ (k : Nat) (l : List Card), ∀ c ∈ kCombos k l, c.length = k
  | 0, _ => by simp [kCombos]
  | _ + 1, [] => by simp [kCombos]
  | k + 1, x :: rest => by
    intro c hc
    simp only [kCombos, List.mem_append, List.mem_map] at hc
    rcases hc with ⟨c', hc', rfl⟩ | hc
    · simp [kCombos_length k rest c' hc']
    · exact kCombos_length (k + 1) rest c hc

/-- Validity of an oracle of iteration orders for the evaluation of a
full card list: the orders used for the j-th 5-card combination enumerate
that combination's distinct ranks. -/
def oracle_valid (OS : Nat → IterOrders) (cards : List Card) : Prop :=
  ∀ (j : Nat) (combo : List Card), (generate_combinations cards 5)[j]? = some combo →
    validOrders (OS j) (sortDesc (combo.map Card.rank))

theorem rhe_loop_oracle_invariant (OS1 OS2 : Nat → IterOrders) :
    ∀ (combos : List (List Card)) (i0 : Nat) (best : HandResult),
      (∀ combo ∈ combos, combo.length = 5) →
      (∀ (j : Nat) (combo : List Card), combos[j]? = some combo →
        validOrders (OS1 (i0 + j)) (sortDesc (combo.map Card.rank))
        ∧ validOrders (OS2 (i0 + j)) (sortDesc (combo.map Card.rank))) →
      rhe_loop OS1 combos i0 best = rhe_loop OS2 combos i0 best
  | [], _, _, _, _ => rfl
  | combo :: rest, i0, best, hlen, hvalid => by
    have h0 := hvalid 0 combo (by simp)
    have e1 : evaluate_five_card_hand (OS1 i0) combo = evaluate_five_card_hand_c combo :=
      evaluate_orders_invariant _ _ (hlen combo (by simp)) (by simpa using h0.1)
    have e2 : evaluate_five_card_hand (OS2 i0) combo = evaluate_five_card_hand_c combo :=
      evaluate_orders_invariant _ _ (hlen combo (by simp)) (by simpa using h0.2)
    simp only [rhe_loop, e1, e2]
    exact rhe_loop_oracle_invariant OS1 OS2 rest (i0 + 1) _
      (fun c hc => hlen c (List.mem_cons_of_mem _ hc))
      (fun j c hj => by
        have h := hvalid (j + 1) c (by simpa using hj)
        rw [show i0 + 1 + j = i0 + (j + 1) by omega]
        exact h)

/- ================= Claim C9 ================= -/

/-- C9: evaluate_best_hand is deterministic: for a fixed pair of hole-card
and community-card sequences, two runs with any two (valid) choices of
HashMap iteration orders inside has_n_of_a_kind and get_pairs return the
same HandResult - the hash-map iteration order never influences the
result. -/
theorem c9_evaluate_best_hand_deterministic (hand community : List Card)
    (OS1 OS2 : Nat → IterOrders)
    (hv1 : oracle_valid OS1 (hand ++ community))
    (hv2 : oracle_valid OS2 (hand ++ community)) :
    evaluate_best_hand OS1 hand community = evaluate_best_hand OS2 hand community := by
  unfold evaluate_best_hand real_hand_evaluation
  split
  · rfl
  · exact rhe_loop_oracle_invariant OS1 OS2 (generate_combinations (hand ++ community) 5) 0 _
      (fun c hc => kCombos_length 5 _ c hc)
      (fun j c hj => ⟨by simpa using hv1 j c hj, by simpa using hv2 j c hj⟩)

/-- The canonical oracle is valid for its card list. -/
theorem canonical_oracle_valid (cards : List Card) :
    oracle_valid (canonical_oracle cards) cards := by
  intro j combo hj
  unfold canonical_oracle canonicalOrders validOrders
  rw [List.getD_eq_getElem?_getD, hj]
  exact ⟨.refl _, .refl _, .refl _, .refl _, .refl _, .refl _⟩

/-- An oracle visiting every HashMap in reversed enumeration order. -/
def reverse_oracle (cards : List Card) : Nat → IterOrders :=
  fun j =>
    let d := (sortDesc ((((generate_combinations cards 5)).getD j []).map Card.rank)).dedup.reverse
    { oFour := d, oThreeFH := d, oTwoFH := d, oThree := d, oTwoOP := d, oPairs := d }

/-- The reversed oracle is valid for its card list. -/
theorem reverse_oracle_valid (cards : List Card) :
    oracle_valid (reverse_oracle cards) cards := by
  intro j combo hj
  unfold reverse_oracle validOrders
  rw [List.getD_eq_getElem?_getD, hj]
  exact ⟨List.reverse_perm _, List.reverse_perm _, List.reverse_perm _,
    List.reverse_perm _, List.reverse_perm _, List.reverse_perm _⟩

/-- C9 witness: on a concrete 7-card input, a run visiting every HashMap
in reversed order returns the same result as the canonical run. -/
theorem c9_witness :
    evaluate_best_hand
      (reverse_oracle ([⟨1, 1⟩, ⟨13, 1⟩] ++ [⟨12, 1⟩, ⟨11, 1⟩, ⟨10, 1⟩, ⟨2, 2⟩, ⟨3, 3⟩]))
      [⟨1, 1⟩, ⟨13, 1⟩] [⟨12, 1⟩, ⟨11, 1⟩, ⟨10, 1⟩, ⟨2, 2⟩, ⟨3, 3⟩]
    = evaluate_best_hand
      (canonical_oracle ([⟨1, 1⟩, ⟨13, 1⟩] ++ [⟨12, 1⟩, ⟨11, 1⟩, ⟨10, 1⟩, ⟨2, 2⟩, ⟨3, 3⟩]))
      [⟨1, 1⟩, ⟨13, 1⟩] [⟨12, 1⟩, ⟨11, 1⟩, ⟨10, 1⟩, ⟨2, 2⟩, ⟨3, 3⟩] :=
  c9_evaluate_best_hand_deterministic _ _ _ _
    (reverse_oracle_valid _) (canonical_oracle_valid _)

/- ================= Chip conservation (toward C10) ================= -/

/-- The strengthened session invariant: the 300 chips of a session are
split between the two stacks and the pot, the pot is always even (every
bet is one of the even fixed amounts 10/20/30/40), and the pot is already
settled to zero whenever the phase is Showdown. -/
def chips_inv (s : GameState) : Prop :=
  s.player_chips + s.ai_chips + (s.pot : Int) = 300
  ∧ s.pot % 2 = 0
  ∧ (s.game_phase = .Showdown → s.pot = 0)

theorem get_fixed_bet_amount_even (s : GameState) : get_fixed_bet_amount s % 2 = 0 := by
  unfold get_fixed_bet_amount
  cases s.game_phase <;> rfl

theorem check_game_end_fields (s : GameState) :
    (check_game_end s).player_chips = s.player_chips
    ∧ (check_game_end s).ai_chips = s.ai_chips
    ∧ (check_game_end s).pot = s.pot
    ∧ (check_game_end s).game_phase = s.game_phase := by
  unfold check_game_end
  split <;> exact ⟨rfl, rfl, rfl, rfl⟩

theorem evaluate_showdown_settle_spec (s : GameState) (heven : s.pot % 2 = 0) :
    (evaluate_showdown_settle s).player_chips + (evaluate_showdown_settle s).ai_chips
        + ((evaluate_showdown_settle s).pot : Int)
      = s.player_chips + s.ai_chips + (s.pot : Int)
    ∧ (evaluate_showdown_settle s).pot = 0
    ∧ (evaluate_showdown_settle s).game_phase = s.game_phase := by
  simp only [evaluate_showdown_settle]
  split
  all_goals refine ⟨?_, by simp, by simp⟩
  all_goals simp
  all_goals omega

theorem evaluate_showdown_spec (s : GameState) (heven : s.pot % 2 = 0) :
    (evaluate_showdown s).player_chips + (evaluate_showdown s).ai_chips
        + ((evaluate_showdown s).pot : Int)
      = s.player_chips + s.ai_chips + (s.pot : Int)
    ∧ (evaluate_showdown s).pot = 0
    ∧ (evaluate_showdown s).game_phase = s.game_phase := by
  obtain ⟨hs1, hs2, hs3⟩ := evaluate_showdown_settle_spec s heven
  obtain ⟨hc1, hc2, hc3, hc4⟩ := check_game_end_fields (evaluate_showdown_settle s)
  unfold evaluate_showdown
  rw [hc1, hc2, hc3, hc4]
  exact ⟨hs1, hs2, hs3⟩

/-- The per-round state reset performed by advance_phase, before the
phase step itself. -/
def round_reset (s : GameState) : GameState :=
  { s with
    player_acted := false
    ai_acted := false
    both_checked := false
    current_bet := 0
    first_round := false }

theorem advance_phase_preflop_eq (s : GameState) (hph : s.game_phase = .PreFlop) :
    advance_phase s = { round_reset s with game_phase := .Flop } := by
  simp only [advance_phase, round_reset, hph]

theorem advance_phase_flop_eq (s : GameState) (hph : s.game_phase = .Flop) :
    advance_phase s = { round_reset s with game_phase := .Turn } := by
  simp only [advance_phase, round_reset, hph]

theorem advance_phase_turn_eq (s : GameState) (hph : s.game_phase = .Turn) :
    advance_phase s = { round_reset s with game_phase := .River } := by
  simp only [advance_phase, round_reset, hph]

theorem advance_phase_river_eq (s : GameState) (hph : s.game_phase = .River) :
    advance_phase s =
      { evaluate_showdown { round_reset s with show_ai_cards := true }
        with game_phase := .Showdown } := by
  simp only [advance_phase, round_reset, hph]

theorem advance_phase_showdown_eq (s : GameState) (hph : s.game_phase = .Showdown) :
    advance_phase s = round_reset s := by
  simp only [advance_phase, round_reset, hph]

theorem advance_phase_inv (s : GameState) (h : chips_inv s) : chips_inv (advance_phase s) := by
  obtain ⟨hsum, heven, hpot⟩ := h
  cases hph : s.game_phase with
  | PreFlop =>
    rw [advance_phase_preflop_eq s hph]
    exact ⟨hsum, heven, fun hh => nomatch hh⟩
  | Flop =>
    rw [advance_phase_flop_eq s hph]
    exact ⟨hsum, heven, fun hh => nomatch hh⟩
  | Turn =>
    rw [advance_phase_turn_eq s hph]
    exact ⟨hsum, heven, fun hh => nomatch hh⟩
  | River =>
    rw [advance_phase_river_eq s hph]
    obtain ⟨he1, he2, he3⟩ := evaluate_showdown_spec
      { round_reset s with show_ai_cards := true } heven
    refine ⟨he1.trans hsum, ?_, fun _ => he2⟩
    show (evaluate_showdown { round_reset s with show_ai_cards := true }).pot % 2 = 0
    rw [he2]
  | Showdown =>
    rw [advance_phase_showdown_eq s hph]
    exact ⟨hsum, heven, fun _ => hpot hph⟩

theorem check_round_end_inv (s : GameState) (h : chips_inv s) :
    chips_inv (check_round_end s) := by
  unfold check_round_end
  split
  · exact advance_phase_inv s h
  · exact h

/-- The actions the AI policy can produce are Check or the fixed bet. -/
theorem ai_action_shape (s : GameState) (a : AiAction)
    (h : ai_action_possible s a = true) :
    a = .Check ∨ a = .Bet (get_fixed_bet_amount s) := by
  unfold ai_action_possible at h
  rcases hd : s.selected_difficulty with _ | d
  · rw [hd] at h
    exact Or.inr (by simpa using h)
  · rw [hd] at h
    cases d with
    | Easy => exact Or.inr (by simpa using h)
    | Medium => exact Or.inr (by simpa using h)
    | Hard =>
      simp only [Bool.or_eq_true, Bool.and_eq_true, beq_iff_eq] at h
      rcases h with h | ⟨_, h⟩
      · exact Or.inr h
      · exact Or.inl h

theorem perform_ai_action_inv (s : GameState) (a : AiAction)
    (ha : a = .Check ∨ a = .Bet (get_fixed_bet_amount s))
    (h : chips_inv s) : chips_inv (perform_ai_action s a) := by
  obtain ⟨hsum, heven, hpot⟩ := h
  unfold perform_ai_action
  split
  · exact ⟨hsum, heven, hpot⟩
  · rcases ha with rfl | rfl
    · exact check_round_end_inv _ ⟨hsum, heven, hpot⟩
    · apply check_round_end_inv
      refine ⟨?_, ?_, ?_⟩
      · show s.player_chips + (s.ai_chips - (get_fixed_bet_amount s : Int))
            + ((s.pot + get_fixed_bet_amount s : Nat) : Int) = 300
        push_cast
        omega
      · show (s.pot + get_fixed_bet_amount s) % 2 = 0
        have := get_fixed_bet_amount_even s
        omega
      · intro hph
        show s.pot + get_fixed_bet_amount s = 0
        have hz : get_fixed_bet_amount s = 0 := by
          unfold get_fixed_bet_amount
          rw [hph]
        have := hpot hph
        omega

/-- Every allowed event preserves the session invariant. -/
theorem event_preserves_inv (s : GameState) (e : GEvent)
    (hallow : event_allowed s e = true) (h : chips_inv s) :
    chips_inv (apply_event s e) := by
  obtain ⟨hsum, heven, hpot⟩ := h
  cases e with
  | PBet =>
    simp only [event_allowed, Bool.and_eq_true, bne_iff_ne, Bool.not_eq_true'] at hallow
    obtain ⟨⟨⟨_, hph⟩, _⟩, _⟩ := hallow
    show chips_inv { place_bet s (get_fixed_bet_amount s) with
      player_acted := true, waiting_for_ai := true }
    have hfields :
        (place_bet s (get_fixed_bet_amount s)).player_chips
            = s.player_chips - (get_fixed_bet_amount s : Int)
        ∧ (place_bet s (get_fixed_bet_amount s)).ai_chips = s.ai_chips
        ∧ (place_bet s (get_fixed_bet_amount s)).pot = s.pot + get_fixed_bet_amount s
        ∧ (place_bet s (get_fixed_bet_amount s)).game_phase = s.game_phase := by
      simp only [place_bet]
      split <;> exact ⟨rfl, rfl, rfl, rfl⟩
    refine ⟨?_, ?_, ?_⟩
    · show (place_bet s (get_fixed_bet_amount s)).player_chips
          + (place_bet s (get_fixed_bet_amount s)).ai_chips
          + ((place_bet s (get_fixed_bet_amount s)).pot : Int) = 300
      rw [hfields.1, hfields.2.1, hfields.2.2.1]
      push_cast
      omega
    · show (place_bet s (get_fixed_bet_amount s)).pot % 2 = 0
      rw [hfields.2.2.1]
      have := get_fixed_bet_amount_even s
      omega
    · show (place_bet s (get_fixed_bet_amount s)).game_phase = .Showdown →
        (place_bet s (get_fixed_bet_amount s)).pot = 0
      rw [hfields.2.2.1, hfields.2.2.2]
      intro hh
      exact absurd hh hph
  | PCheck => exact ⟨hsum, heven, hpot⟩
  | PFold =>
    show chips_inv { player_fold s with has_used_special_action := true }
    have hfields : (player_fold s).player_chips = s.player_chips
        ∧ (player_fold s).ai_chips = s.ai_chips + (s.pot : Int)
        ∧ (player_fold s).pot = 0
        ∧ (player_fold s).game_phase = s.game_phase := by
      unfold player_fold
      exact check_game_end_fields
        { s with show_ai_cards := true, ai_chips := s.ai_chips + (s.pot : Int), pot := 0 }
    refine ⟨?_, ?_, ?_⟩
    · show (player_fold s).player_chips + (player_fold s).ai_chips
          + ((player_fold s).pot : Int) = 300
      rw [hfields.1, hfields.2.1, hfields.2.2.1]
      push_cast
      omega
    · show (player_fold s).pot % 2 = 0
      rw [hfields.2.2.1]
    · show (player_fold s).game_phase = .Showdown → (player_fold s).pot = 0
      rw [hfields.2.2.1]
      intro _
      rfl
  | AIMove a =>
    simp only [event_allowed, Bool.and_eq_true] at hallow
    have hshape := ai_action_shape s a hallow.2
    have hshape' : a = .Check
        ∨ a = .Bet (get_fixed_bet_amount { s with waiting_for_ai := false }) := hshape
    exact perform_ai_action_inv { s with waiting_for_ai := false } a hshape'
      ⟨hsum, heven, hpot⟩
  | NextRound shuffled =>
    simp only [event_allowed, Bool.and_eq_true, beq_iff_eq] at hallow
    obtain ⟨⟨_, hph⟩, _⟩ := hallow
    have hp0 : s.pot = 0 := hpot hph
    refine ⟨?_, ?_, ?_⟩
    · show s.player_chips + s.ai_chips + ((0 : Nat) : Int) = 300
      omega
    · show (0 : Nat) % 2 = 0
      rfl
    · intro hh
      rfl

/-- The session entry state satisfies the invariant. -/
theorem init_session_inv (d : GameDifficulty) (shuffled : List CardId) :
    chips_inv (init_session d shuffled) :=
  ⟨rfl, rfl, fun hh => nomatch hh⟩

theorem runOk_inv : ∀ (events : List GEvent) (s s' : GameState),
    chips_inv s → runOk s events = some s' → chips_inv s'
  | [], s, s', h, hr => by
    have hss : s = s' := by
      simpa [runOk] using hr
    exact hss ▸ h
  | e :: rest, s, s', h, hr => by
    unfold runOk at hr
    split at hr
    · exact runOk_inv rest (apply_event s e) s'
        (event_preserves_inv s e (by assumption) h) hr
    · exact absurd hr (by simp)

/- ================= Claim C10 ================= -/

/-- C10: in every reachable state of one game session (any difficulty,
any shuffles, any allowed event sequence: bets, checks, folds, AI moves,
next hands - everything short of a session reset), the chips are
conserved: player_chips + ai_chips + pot = 300, with the session starting
at 200/100/0; every bet moves a stack amount into the pot, fold awards
and non-tied showdowns move the whole pot to one stack, and tied
showdowns split a pot that is always even in reachable states. -/
theorem c10_chip_conservation (d : GameDifficulty) (shuffled : List CardId)
    (events : List GEvent) (s : GameState)
    (h : runOk (init_session d shuffled) events = some s) :
    s.player_chips + s.ai_chips + (s.pot : Int) = 300 :=
  (runOk_inv events (init_session d shuffled) s (init_session_inv d shuffled) h).1

/-- C10 witness: conservation along the concrete 15-event session of the
C2 counterexample trace, which crosses a showdown and a next-hand reset:
the final state splits the 300 chips as 200 / -20 / 120. -/
theorem c10_witness :
    (runOk (init_session .Hard d1)
      [.PBet, .AIMove (.Bet 10), .PBet, .AIMove (.Bet 20), .PBet, .AIMove (.Bet 30),
       .PBet, .AIMove .Check, .NextRound d2,
       .PBet, .AIMove (.Bet 10), .PBet, .AIMove (.Bet 20), .PBet,
       .AIMove (.Bet 30)]).elim True
      (fun s => s.player_chips + s.ai_chips + (s.pot : Int) = 300) := by
  cases hrun : runOk (init_session .Hard d1)
      [.PBet, .AIMove (.Bet 10), .PBet, .AIMove (.Bet 20), .PBet, .AIMove (.Bet 30),
       .PBet, .AIMove .Check, .NextRound d2,
       .PBet, .AIMove (.Bet 10), .PBet, .AIMove (.Bet 20), .PBet,
       .AIMove (.Bet 30)] with
  | none => exact trivial
  | some s => exact c10_chip_conservation .Hard d1 _ s hrun

end CardGame
